import Mathlib

/-!
Verification of the babygit object store (`babygit/babygit.py`).

Python byte strings are modelled as `List Nat` (each element a byte value).
Python exceptions are modelled with `Except String`; the string is the
message of the raised error.  Functions that read a file handle
sequentially are modelled on the remaining suffix of the file's bytes:
`f.read(1)` at end of file yields `''` and `ord('')` raises, which is
modelled as an `.error` on the empty list.
-/

namespace Babygit

/-- First index of byte `c` in `s`, if any (Python `s.find(c)` when `≥ 0`). -/
def idxOf? (c : Nat) : List Nat → Option Nat
  | [] => none
  | x :: xs => if x = c then some 0 else (idxOf? c xs).map (· + 1)

/-- Python `s.find(c)`: first index of `c`, or `-1` when absent. -/
def pyFind (c : Nat) (s : List Nat) : Int :=
  match idxOf? c s with
  | some i => (i : Int)
  | none => -1

/-- Resolve a Python slice bound against a sequence of length `n`:
negative indices count from the end, and bounds are clamped to `[0, n]`. -/
def pyIdx (n : Nat) (i : Int) : Nat :=
  if i < 0 then (max (i + n) 0).toNat else min i.toNat n

/-- Python `s[a:b]` with full negative-index and clamping semantics. -/
def pySlice (s : List Nat) (a b : Int) : List Nat :=
  (s.take (pyIdx s.length b)).drop (pyIdx s.length a)

/-- `s[off:off+n]` for non-negative bounds (used for fixed-width reads). -/
def sliceN (s : List Nat) (off n : Nat) : List Nat :=
  (s.drop off).take n

/-- Decimal digits (ASCII codes) of `n`, most significant first
(Python `str(n)` for a non-negative integer). -/
def toDec (n : Nat) : List Nat :=
  if h : n < 10 then [48 + n]
  else toDec (n / 10) ++ [48 + n % 10]
  decreasing_by exact Nat.div_lt_self (by omega) (by omega)

/-- Python `int(s)` restricted to unsigned digit strings (the only shape
this code ever produces): `none` models the `ValueError` raised on an
empty or non-digit string. -/
def parseDec (l : List Nat) : Option Nat :=
  if l ≠ [] ∧ l.all (fun d => 48 ≤ d ∧ d ≤ 57) then
    some (l.foldl (fun a d => a * 10 + (d - 48)) 0)
  else none

/-- `obj_type(obj) = obj[:obj.find(' ')]` (source line 170). -/
def objType (obj : List Nat) : List Nat :=
  pySlice obj 0 (pyFind 32 obj)

/-- `obj_size(obj) = int(obj[obj.find(' ')+1 : obj.find('\x00')])`
(source line 173); `none` models the `ValueError` of `int`. -/
def objSize (obj : List Nat) : Option Nat :=
  parseDec (pySlice obj (pyFind 32 obj + 1) (pyFind 0 obj))

/-- `obj_contents(obj) = obj[obj.find('\x00')+1:]` (source line 176). -/
def objContents (obj : List Nat) : List Nat :=
  pySlice obj (pyFind 0 obj + 1) obj.length

/-- The object envelope `"<type> <size>\0<payload>"` with `size` the
decimal payload length, as built at source lines 41 and 139. -/
def envelope (ty payload : List Nat) : List Nat :=
  ty ++ [32] ++ toDec payload.length ++ [0] ++ payload

/-! ### get_delta_hdr_size (source lines 23–33)

The source walks an absolute offset through `data`; here the consumed
prefix is dropped instead, so the function maps the remaining bytes to
`(size, remaining-after-header)`.  Reading past the end of the data
(`ord(data[offset])` with `offset ≥ len(data)`) raises `IndexError`. -/

/-- Continuation loop of `get_delta_hdr_size`: while the previous byte
has its high bit set, take the next byte and add its low 7 bits shifted
by the current shift (little-endian group order). -/
def hdrLoop : List Nat → Nat → Nat → Nat → Except String (Nat × List Nat)
  | rest, size, shift, prev =>
    if prev &&& 0x80 = 0 then .ok (size, rest)
    else
      match rest with
      | [] => .error "IndexError"
      | b :: r => hdrLoop r (size + ((b &&& 0x7f) <<< shift)) (shift + 7) b

/-- `get_delta_hdr_size(data, offset)` on the suffix `data[offset:]`. -/
def getDeltaHdrSize : List Nat → Except String (Nat × List Nat)
  | [] => .error "IndexError"
  | b :: r => hdrLoop r (b &&& 0x7f) 7 b

/-! ### patch_delta (source lines 35–73) -/

/-- `data_off = ref.find('\x00') + 1` (source line 37): one past the
first NUL, or `0` when there is none (`find` returns `-1`). -/
def dataOff (ref : List Nat) : Nat :=
  match idxOf? 0 ref with
  | some i => i + 1
  | none => 0

/-- One conditional byte read of the copy-opcode decoder: when the
guard (`cmd & (1 << i)` in the source, truthy iff nonzero) is set,
read the delta byte at relative position `i` and advance (IndexError
past the end of the stream); otherwise contribute `0` and stay. -/
def condByte (g : Nat) (rest : List Nat) (i : Nat) :
    Except String (Nat × Nat) :=
  if g ≠ 0 then
    match rest[i]? with
    | none => .error "IndexError"
    | some x => .ok (x, i + 1)
  else .ok (0, i)

/-- Decode the operands of a copy opcode `cmd` (source lines 48–58):
up to 4 offset bytes selected by bits 0–3, little-endian, added to
`data_off`; up to 3 length bytes selected by bits 4–6, little-endian;
a zero assembled length becomes `0x10000`.  Returns
`(copy_off, copy_size, number of operand bytes consumed)`. -/
def decodeCopy (cmd dOff : Nat) (rest : List Nat) :
    Except String (Nat × Nat × Nat) :=
  match condByte (cmd &&& 1) rest 0 with
  | .error e => .error e
  | .ok (v0, i0) =>
  match condByte (cmd &&& 2) rest i0 with
  | .error e => .error e
  | .ok (v1, i1) =>
  match condByte (cmd &&& 4) rest i1 with
  | .error e => .error e
  | .ok (v2, i2) =>
  match condByte (cmd &&& 8) rest i2 with
  | .error e => .error e
  | .ok (v3, i3) =>
  match condByte (cmd &&& 0x10) rest i3 with
  | .error e => .error e
  | .ok (s0, i4) =>
  match condByte (cmd &&& 0x20) rest i4 with
  | .error e => .error e
  | .ok (s1, i5) =>
  match condByte (cmd &&& 0x40) rest i5 with
  | .error e => .error e
  | .ok (s2, i6) =>
    let copyOff := dOff + v0 + (v1 <<< 8) + (v2 <<< 16) + (v3 <<< 24)
    let size0 := s0 ||| (s1 <<< 8) ||| (s2 <<< 16)
    .ok (copyOff, if size0 = 0 then 0x10000 else size0, i6)

/-- The opcode-processing loop of `patch_delta` (source lines 42–72),
on the remaining delta suffix.  All reads are sequential, so the
absolute `offset` of the source becomes the suffix `rest`; `acc` is the
joined output assembled so far.  The insert opcode slices
`delta[offset:offset+cmd]`, which Python silently truncates at the end
of the stream — hence `rest.take cmd` with no length check. -/
def patchLoop (ref : List Nat) (dOff : Nat) :
    Nat → List Nat → List Nat → Except String (List Nat)
  | remaining, acc, [] =>
    if remaining ≠ 0 then .error "didn't fill output buffer" else .ok acc
  | remaining, acc, cmd :: rest =>
    if cmd &&& 0x80 ≠ 0 then
      match decodeCopy cmd dOff rest with
      | .error e => .error e
      | .ok (copyOff, copySize, used) =>
        if copyOff + copySize > ref.length then .error "size overflow"
        else if copySize > remaining then .error "output size overflow"
        else patchLoop ref dOff (remaining - copySize)
          (acc ++ sliceN ref copyOff copySize) (rest.drop used)
    else if cmd > 0 then
      if cmd > remaining then .error "output size overflow"
      else patchLoop ref dOff (remaining - cmd) (acc ++ rest.take cmd)
        (rest.drop cmd)
    else .error "caught zero command"
  termination_by _ _ rest => rest.length
  decreasing_by
  · simp only [List.length_cons, List.length_drop]
    omega
  · simp only [List.length_cons, List.length_drop]
    omega

/-- `patch_delta(ref, delta)` (source lines 35–73). -/
def patchDelta (ref delta : List Nat) : Except String (List Nat) := do
  let (srcSize, rest1) ← getDeltaHdrSize delta
  if srcSize ≠ ref.length - dataOff ref then .error "size mismatch"
  else do
    let (resultSize, rest2) ← getDeltaHdrSize rest1
    let header := objType ref ++ [32] ++ toDec resultSize ++ [0]
    patchLoop ref (dataOff ref) resultSize header rest2

/-! ### read_zlib (source lines 125–133)

`read_zlib` feeds 4096-byte chunks of the file to a `zlib.decompressobj`
and accumulates the decompressed blocks while `sizeremaining > 0`.  It
is modelled on the sequence of decompressed blocks the decompressor
yields, one per `d.decompress(f.read(4096))` call; once the file is
exhausted every further call yields the empty block (`d.decompress('')`
is `''`), so a finite block list stands for that block sequence followed
by empty blocks forever. -/

/-- The `while sizeremaining > 0` loop of `read_zlib`, stopped after
`fuel` iterations: `none` means the loop was still running.  When the
block list is exhausted the loop keeps receiving empty blocks, leaving
`sizeremaining` unchanged. -/
def readZlibFuel : Nat → List (List Nat) → Int → List Nat → Option (List Nat)
  | fuel, blocks, r, acc =>
    if r ≤ 0 then some acc
    else
      match fuel with
      | 0 => none
      | fuel + 1 =>
        match blocks with
        | [] => readZlibFuel fuel [] r acc
        | b :: rest => readZlibFuel fuel rest (r - b.length) (acc ++ b)

/-- Denotation of the `read_zlib` loop: the joined result when the loop
terminates, `none` when it runs forever (block list exhausted while
`sizeremaining > 0`, so every further iteration is an empty block). -/
def readZlibCore : List (List Nat) → Int → List Nat → Option (List Nat)
  | blocks, r, acc =>
    if r ≤ 0 then some acc
    else
      match blocks with
      | [] => none
      | b :: rest => readZlibCore rest (r - b.length) (acc ++ b)

/-- `read_zlib(f, size)` on the block sequence `blocks`. -/
def readZlib (blocks : List (List Nat)) (size : Nat) : Option (List Nat) :=
  readZlibCore blocks (size : Int) []

/-! ### get_type_and_size and the offset-delta distance (source lines
141–146 and 159–168), on the remaining bytes of the file: `f.read(1)`
at end of file returns `''` and `ord('')` raises, modelled as an error
on the empty list. -/

/-- Continuation loop of `get_type_and_size`: while the previous byte
has its high bit set, the next byte contributes its low 7 bits shifted
by the running shift (little-endian group order, shift starts at 4). -/
def tsLoop : List Nat → Nat → Nat → Nat → Except String (Nat × List Nat)
  | rest, size, shift, prev =>
    if prev &&& 0x80 = 0 then .ok (size, rest)
    else
      match rest with
      | [] => .error "TypeError: ord() expected a character"
      | b :: r => tsLoop r (size + ((b &&& 0x7f) <<< shift)) (shift + 7) b

/-- `get_type_and_size(f)` (source lines 159–168): type is bits 4–6 of
the first byte, size starts from its low 4 bits.  Returns
`(type, size, remaining file bytes)`. -/
def getTypeAndSize : List Nat → Except String (Nat × Nat × List Nat)
  | [] => .error "TypeError: ord() expected a character"
  | byte :: r =>
    match tsLoop r (byte &&& 15) 4 byte with
    | .error e => .error e
    | .ok (size, rest) => .ok ((byte >>> 4) &&& 7, size, rest)

/-- Continuation loop of the offset-delta distance decoder: while the
previous byte has its high bit set, `off = ((off + 1) << 7) + (b & 0x7f)`
(big-endian group order, adding 1 before the shift). -/
def ofsLoop : List Nat → Nat → Nat → Except String (Nat × List Nat)
  | rest, off, prev =>
    if prev &&& 0x80 = 0 then .ok (off, rest)
    else
      match rest with
      | [] => .error "TypeError: ord() expected a character"
      | b :: r => ofsLoop r (((off + 1) <<< 7) + (b &&& 0x7f)) b

/-- The backward-distance decoder of the `OBJ_OFS_DELTA` branch
(source lines 142–146).  Returns `(distance, remaining file bytes)`. -/
def getOfsDistance : List Nat → Except String (Nat × List Nat)
  | [] => .error "TypeError: ord() expected a character"
  | byte :: r => ofsLoop r (byte &&& 0x7f) byte

/-- Modelled from the spec: `store.obj_types` lives in module `store`,
which is not under `src/`; the spec (§4.3, §6) gives type codes
1=commit, 2=tree, 3=blob, 4=tag.  Entry 0 is not specified and is
modelled as `"none"`. -/
def objTypes : Nat → List Nat
  | 1 => [99, 111, 109, 109, 105, 116]
  | 2 => [116, 114, 101, 101]
  | 3 => [98, 108, 111, 98]
  | 4 => [116, 97, 103]
  | _ => [110, 111, 110, 101]

/-- `get_pack_obj(packfn, offset)` (source lines 134–157).  The pack
file's bytes are `f`; `f.seek(offset)` followed by sequential reads is
`f.drop offset`.  `Z suffix` is the sequence of blocks the zlib
decompressor yields for the compressed stream starting at `suffix`
(read in 4096-byte chunks); `G` is the owning store's `getobj`, used by
the `OBJ_REF_DELTA` branch (its `store.Store` superclass is not under
`src/`), `none` standing for a failed lookup, which makes
`patch_delta(None, delta)` raise.  `.ok none` models Python returning
`None` (the `can't handle type` branch); a diverging `read_zlib` is
mapped to the distinguished error `"read_zlib hangs"`; exhausting
`fuel` models Python's recursion limit. -/
def getPackObj (Z : List Nat → List (List Nat))
    (G : List Nat → Option (List Nat)) :
    Nat → List Nat → Nat → Except String (Option (List Nat))
  | 0, _, _ => .error "maximum recursion depth exceeded"
  | fuel + 1, f, offset =>
    match getTypeAndSize (f.drop offset) with
    | .error e => .error e
    | .ok (t, size, rest) =>
      if t < 5 then
        match readZlib (Z rest) size with
        | none => .error "read_zlib hangs"
        | some payload =>
          .ok (some (objTypes t ++ [32] ++ toDec size ++ [0] ++ payload))
      else if t = 6 then
        match getOfsDistance rest with
        | .error e => .error e
        | .ok (dist, rest2) =>
          match readZlib (Z rest2) size with
          | none => .error "read_zlib hangs"
          | some delta =>
            if dist ≤ offset then
              match getPackObj Z G fuel f (offset - dist) with
              | .error e => .error e
              | .ok none => .error "AttributeError"
              | .ok (some ref) => (patchDelta ref delta).map some
            else .error "IOError: negative seek"
      else if t = 7 then
        match readZlib (Z (rest.drop 20)) size with
        | none => .error "read_zlib hangs"
        | some delta =>
          match G (rest.take 20) with
          | none => .error "AttributeError"
          | some ref => (patchDelta ref delta).map some
      else .ok none

/-! ### Pack index lookup (source lines 100–124) -/

/-- `struct.unpack('>I', idx[off:off+4])`: 4-byte big-endian unsigned
integer; a short slice raises `struct.error`. -/
def readU32E (idx : List Nat) (off : Nat) : Except String Nat :=
  if off + 4 ≤ idx.length then
    .ok ((idx.getD off 0) <<< 24 + (idx.getD (off + 1) 0) <<< 16 +
      (idx.getD (off + 2) 0) <<< 8 + idx.getD (off + 3) 0)
  else .error "struct.error"

/-- The 20-byte hash-table entry at index `ix` (the table starts at
byte 1032 of the index file). -/
def hashAt (idx : List Nat) (ix : Nat) : List Nat :=
  sliceN idx (1032 + 20 * ix) 20

/-- The linear scan of source lines 113–118: the first `ix` in
`[ix, hi)` whose 20-byte table entry equals `target` (Python's slice
comparison is total, so no bounds error is possible here). -/
def idxScan (idx target : List Nat) (ix hi : Nat) : Option Nat :=
  if ix < hi then
    if hashAt idx ix = target then some ix else idxScan idx target (ix + 1) hi
  else none
  termination_by hi - ix

/-- The per-pack part of `get_obj_from_pack(sha)` (source lines
102–124) for one parsed index `idx` and the 20-byte binary hash `sha`:
`.ok none` is a miss (the source falls through to the next pack),
`.ok (some off)` the pack offset of the matching entry. -/
def lookupIdx (idx sha : List Nat) : Except String (Option Nat) :=
  let firstbyte := sha.headD 0
  match
    (if firstbyte = 0 then
      match readU32E idx 8 with
      | .error e => .error e
      | .ok hi => .ok (0, hi)
    else
      match readU32E idx (4 + 4 * firstbyte) with
      | .error e => .error e
      | .ok lo =>
        match readU32E idx (4 + 4 * firstbyte + 4) with
        | .error e => .error e
        | .ok hi => .ok (lo, hi) :
        Except String (Nat × Nat)) with
  | .error e => .error e
  | .ok (lo, hi) =>
    match idxScan idx sha lo hi with
    | none => .ok none
    | some ix =>
      match readU32E idx 1028 with
      | .error e => .error e
      | .ok nObjs =>
        match readU32E idx (1032 + 24 * nObjs + 4 * ix) with
        | .error e => .error e
        | .ok packOff => .ok (some packOff)

/-- Following the spec's words (§4.2): fan-out entry `e` of a
version-2 index, a 4-byte big-endian count at byte `8 + 4e` (after the
8-byte header). -/
def fanout (idx : List Nat) (e : Nat) : Except String Nat :=
  readU32E idx (8 + 4 * e)

/-- Following the spec's words (§4.2 `lookup`): take the hash's first
byte `b`; read fan-out entries `b-1` and `b` (`lo = 0` when `b = 0`)
to get the candidate range `[lo, hi)`; search it for an exact match;
on a match at `ix` return the 4-byte big-endian offset at
`1032 + 24*N + 4*ix` where `N` is the final fan-out entry (entry 255);
otherwise report no result. -/
def specLookup (idx sha : List Nat) : Except String (Option Nat) :=
  let b := sha.headD 0
  match
    (if b = 0 then .ok 0 else fanout idx (b - 1) :
      Except String Nat) with
  | .error e => .error e
  | .ok lo =>
    match fanout idx b with
    | .error e => .error e
    | .ok hi =>
      match (List.range' lo (hi - lo)).find?
          (fun ix => decide (hashAt idx ix = sha)) with
      | none => .ok none
      | some ix =>
        match fanout idx 255 with
        | .error e => .error e
        | .ok nObjs =>
          match readU32E idx (1032 + 24 * nObjs + 4 * ix) with
          | .error e => .error e
          | .ok packOff => .ok (some packOff)

/-- Lexicographic comparison of byte strings (how the sorted hash
table is ordered; for the fixed-width 20-byte entries this coincides
with big-endian numeric order). -/
def cmpB : List Nat → List Nat → Ordering
  | [], [] => .eq
  | [], _ :: _ => .lt
  | _ :: _, [] => .gt
  | a :: as, b :: bs =>
    if a < b then .lt else if b < a then .gt else cmpB as bs

/-- Binary search over the hash-table entries in `[lo, hi)` — the
spec's preferred implementation of the fan-out-restricted search. -/
def binSearch (idx target : List Nat) (lo hi : Nat) : Option Nat :=
  if lo < hi then
    let mid := (lo + hi) / 2
    match cmpB (hashAt idx mid) target with
    | .lt => binSearch idx target (mid + 1) hi
    | .eq => some mid
    | .gt => binSearch idx target lo mid
  else none
  termination_by hi - lo
  decreasing_by
  · omega
  · omega

/-! ### Stores (source lines 75–83 and 199–211) -/

/-- Python dict lookup for the `MemStore` mapping (`self.store[sha]`);
`none` models the `KeyError` on a missing key. -/
def lookupA : List (List Nat × List Nat) → List Nat → Option (List Nat)
  | [], _ => none
  | (k, v) :: rest, sha => if k = sha then some v else lookupA rest sha

/-- `MemStore.getobj(sha) = self.store[sha]` (source line 202). -/
def memGetobj (m : List (List Nat × List Nat)) (sha : List Nat) :
    Option (List Nat) :=
  lookupA m sha

/-- `MemStore.getlooseobj(sha) = zlib.compress(self.store[sha])`
(source line 204), with `zlib.compress` as an abstract parameter. -/
def memGetlooseobj (compress : List Nat → List Nat)
    (m : List (List Nat × List Nat)) (sha : List Nat) : Option (List Nat) :=
  (lookupA m sha).map compress

/-- The loose-object path `os.path.join(basedir, 'objects', sha[:2],
sha[2:])` (source line 80), kept as its list of components. -/
def loosePath (basedir sha : List Nat) : List (List Nat) :=
  [basedir, [111, 98, 106, 101, 99, 116, 115], sha.take 2, sha.drop 2]

/-- `FsStore.getlooseobj(sha)` (source lines 79–83): return the loose
file's bytes verbatim (`f.read()`), or `None` when the path does not
exist; the filesystem is the abstract map `readFile`. -/
def fsGetlooseobj (readFile : List (List Nat) → Option (List Nat))
    (basedir sha : List Nat) : Option (List Nat) :=
  readFile (loosePath basedir sha)

/-- Helper: on a truncated stream — total decompressed bytes strictly
below the requested size — the `read_zlib` loop never finishes, no
matter how many iterations it is allowed. -/
theorem readZlibFuel_eq_none (fuel : Nat) :
    ∀ (blocks : List (List Nat)) (r : Int) (acc : List Nat),
      ((blocks.map List.length).sum : Int) < r →
      readZlibFuel fuel blocks r acc = none := by
  induction fuel with
  | zero =>
    intro blocks r acc hlt
    rw [readZlibFuel.eq_def]
    have : ¬ r ≤ 0 := by
      have : (0 : Int) ≤ ((blocks.map List.length).sum : Int) := by positivity
      omega
    simp [this]
  | succ fuel ih =>
    intro blocks r acc hlt
    rw [readZlibFuel.eq_def]
    have hr : ¬ r ≤ 0 := by
      have : (0 : Int) ≤ ((blocks.map List.length).sum : Int) := by positivity
      omega
    simp only [hr, if_false]
    match blocks with
    | [] =>
      exact ih [] r acc (by simpa using hlt)
    | b :: rest =>
      refine ih rest (r - b.length) (acc ++ b) ?_
      simp only [List.map_cons, List.sum_cons] at hlt
      push_cast at hlt ⊢
      omega

/-- Helper: whenever the fueled `read_zlib` loop finishes with a
result, the loop denotation `readZlibCore` agrees on that result. -/
theorem readZlibFuel_some (fuel : Nat) :
    ∀ (blocks : List (List Nat)) (r : Int) (acc res : List Nat),
      readZlibFuel fuel blocks r acc = some res →
      readZlibCore blocks r acc = some res := by
  induction fuel with
  | zero =>
    intro blocks r acc res h
    rw [readZlibFuel.eq_def] at h
    by_cases hr : r ≤ 0
    · simp only [hr, if_true] at h
      rw [readZlibCore.eq_def]
      simp [hr, h]
    · simp [hr] at h
  | succ fuel ih =>
    intro blocks r acc res h
    rw [readZlibFuel.eq_def] at h
    by_cases hr : r ≤ 0
    · simp only [hr, if_true] at h
      rw [readZlibCore.eq_def]
      simp [hr, h]
    · simp only [hr, if_false] at h
      match blocks with
      | [] =>
        have := readZlibFuel_eq_none fuel [] r acc (by simp; omega)
        rw [this] at h
        cases h
      | b :: rest =>
        rw [readZlibCore.eq_def]
        simp only [hr, if_false]
        exact ih rest (r - b.length) (acc ++ b) res h

/-- Helper: a returned `read_zlib` result always holds at least the
requested number of bytes beyond the accumulator (the loop only stops
once `sizeremaining ≤ 0`). -/
theorem readZlibCore_length :
    ∀ (blocks : List (List Nat)) (r : Int) (acc res : List Nat),
      readZlibCore blocks r acc = some res →
      r + acc.length ≤ (res.length : Int) := by
  intro blocks
  induction blocks with
  | nil =>
    intro r acc res h
    rw [readZlibCore.eq_def] at h
    by_cases hr : r ≤ 0
    · simp only [hr, if_true, Option.some.injEq] at h
      subst h
      omega
    · simp [hr] at h
  | cons b rest ih =>
    intro r acc res h
    rw [readZlibCore.eq_def] at h
    by_cases hr : r ≤ 0
    · simp only [hr, if_true, Option.some.injEq] at h
      subst h
      omega
    · simp only [hr, if_false] at h
      have := ih (r - b.length) (acc ++ b) res h
      simp only [List.length_append] at this
      push_cast at this ⊢
      omega

/-- C1: `patch_delta` rejects with an error, returning no object:
(1) a delta whose declared base size disagrees with the actual base
payload length; (2) a copy opcode whose `offset+length` exceeds the
base; (3a) a copy and (3b) an insert opcode whose length exceeds the
remaining output budget; (4) a zero opcode; (5) a delta stream
exhausted with `remaining ≠ 0`.  Parts (2)–(5) are stated on the
opcode-processing loop at an arbitrary processing state. -/
theorem patchDelta_rejections (ref delta : List Nat) (dOff rem : Nat)
    (acc rest : List Nat) (cmd : Nat) :
    (∀ srcSize rest1, getDeltaHdrSize delta = .ok (srcSize, rest1) →
      srcSize ≠ ref.length - dataOff ref →
      patchDelta ref delta = .error "size mismatch")
    ∧
    (∀ copyOff copySize used, cmd &&& 0x80 ≠ 0 →
      decodeCopy cmd dOff rest = .ok (copyOff, copySize, used) →
      ref.length < copyOff + copySize →
      patchLoop ref dOff rem acc (cmd :: rest) = .error "size overflow")
    ∧
    (∀ copyOff copySize used, cmd &&& 0x80 ≠ 0 →
      decodeCopy cmd dOff rest = .ok (copyOff, copySize, used) →
      copyOff + copySize ≤ ref.length → rem < copySize →
      patchLoop ref dOff rem acc (cmd :: rest) = .error "output size overflow")
    ∧
    (cmd &&& 0x80 = 0 → 0 < cmd → rem < cmd →
      patchLoop ref dOff rem acc (cmd :: rest) = .error "output size overflow")
    ∧
    (patchLoop ref dOff rem acc (0 :: rest) = .error "caught zero command")
    ∧
    (rem ≠ 0 → patchLoop ref dOff rem acc [] = .error "didn't fill output buffer") := by
  refine ⟨?_, ?_, ?_, ?_, ?_, ?_⟩
  · intro srcSize rest1 hp hne
    simp [patchDelta, bind, Except.bind, hp, hne]
  · intro copyOff copySize used hc hd hover
    rw [patchLoop]
    simp only [hc, ne_eq, not_false_iff, if_true, if_pos, hd]
    simp [hover]
  · intro copyOff copySize used hc hd hle hbudget
    rw [patchLoop]
    simp only [hc, ne_eq, not_false_iff, if_true, if_pos, hd]
    simp [hbudget, Nat.not_lt.mpr hle]
  · intro hc h0 hbudget
    rw [patchLoop]
    simp [hc, Nat.pos_iff_ne_zero.mp h0, hbudget, Nat.not_lt.mpr, gt_iff_lt]
  · rw [patchLoop]
    simp
  · intro hrem
    rw [patchLoop]
    simp [hrem]

/-- Witness for C1: each rejection case exercised at a concrete input
(base `"blob 0\0"`, and for (1) a delta declaring base size 5). -/
theorem patchDelta_rejections_witness :
    patchDelta [98, 108, 111, 98, 32, 48, 0] [5] = .error "size mismatch"
    ∧ patchLoop [98, 108, 111, 98, 32, 48, 0] 7 0 [] [0x80] = .error "size overflow"
    ∧ patchLoop [98, 108, 111, 98, 32, 48, 0] 0 2 [] [0x90, 3] = .error "output size overflow"
    ∧ patchLoop [98, 108, 111, 98, 32, 48, 0] 7 2 [] [3] = .error "output size overflow"
    ∧ patchLoop [98, 108, 111, 98, 32, 48, 0] 7 2 [] [0] = .error "caught zero command"
    ∧ patchLoop [98, 108, 111, 98, 32, 48, 0] 7 2 [] [] = .error "didn't fill output buffer" :=
  ⟨(patchDelta_rejections [98, 108, 111, 98, 32, 48, 0] [5] 0 0 [] [] 0).1
      5 [] (by rfl) (by decide),
   (patchDelta_rejections [98, 108, 111, 98, 32, 48, 0] [] 7 0 [] [] 0x80).2.1
      7 0x10000 0 (by decide) (by rfl) (by decide),
   (patchDelta_rejections [98, 108, 111, 98, 32, 48, 0] [] 0 2 [] [3] 0x90).2.2.1
      0 3 1 (by decide) (by rfl) (by decide) (by decide),
   (patchDelta_rejections [98, 108, 111, 98, 32, 48, 0] [] 7 2 [] [] 3).2.2.2.1
      (by decide) (by decide) (by decide),
   (patchDelta_rejections [98, 108, 111, 98, 32, 48, 0] [] 7 2 [] [] 0).2.2.2.2.1,
   (patchDelta_rejections [98, 108, 111, 98, 32, 48, 0] [] 7 2 [] [] 0).2.2.2.2.2
      (by decide)⟩

/-- C2 (code bug): an insert opcode announcing 2 literal bytes while
only 1 byte remains in the delta stream is silently truncated by the
Python slice `delta[offset:offset+cmd]`; the `remaining` accounting is
decremented by the announced 2, so the final "didn't fill output
buffer" check passes and `patch_delta` returns normally an object whose
envelope declares size 2 but whose payload has only 1 byte — a partial
object, contradicting the spec.  Base `"blob 1\0A"`, delta
`[0x01, 0x02, 0x02, 0x42]` (base size 1, result size 2, insert 2,
literal `"B"`). -/
theorem patchDelta_partial_object :
    patchDelta [98, 108, 111, 98, 32, 49, 0, 65] [1, 2, 2, 66]
      = .ok [98, 108, 111, 98, 32, 50, 0, 66]
    ∧ objSize [98, 108, 111, 98, 32, 50, 0, 66] = some 2
    ∧ (objContents [98, 108, 111, 98, 32, 50, 0, 66]).length = 1 := by
  refine ⟨?_, by decide, by decide⟩
  simp +decide [patchDelta, getDeltaHdrSize, hdrLoop, dataOff, idxOf?, objType, pySlice,
    pyFind, pyIdx, toDec, patchLoop, decodeCopy, condByte, sliceN, bind, Except.bind]

/-- C6 (counterexample): a stream whose first decompressed block holds
2 bytes against a declared size of 1 makes `read_zlib` return those 2
bytes normally — a returned byte string whose length differs from the
declared size, with no error of any kind, refuting the claim that such
a disagreement fails with `CorruptPack`. -/
theorem readZlib_no_size_check : readZlib [[0, 0]] 1 = some [0, 0]
    ∧ ([0, 0] : List Nat).length ≠ 1 := by
  constructor
  · rw [readZlib, readZlibCore.eq_def]
    norm_num
    rw [readZlibCore.eq_def]
    norm_num
  · decide

/-- C6 (amended): `read_zlib` performs no size verification and raises
no error: whenever its loop returns a result, that result holds at
least the declared number of bytes (never fewer — so a truncated
stream never yields a short string), but it may hold strictly more,
returned without any error; and every result of the fueled while-loop
is the loop denotation `readZlibCore`, so this covers every
terminating run. -/
theorem readZlib_returns_at_least_size :
    (∀ (blocks : List (List Nat)) (size : Nat) (res : List Nat),
      readZlib blocks size = some res → size ≤ res.length)
    ∧ (∀ (fuel : Nat) (blocks : List (List Nat)) (r : Int) (acc res : List Nat),
      readZlibFuel fuel blocks r acc = some res →
      readZlibCore blocks r acc = some res) := by
  constructor
  · intro blocks size res h
    have := readZlibCore_length blocks (size : Int) [] res h
    simp at this
    exact_mod_cast this
  · exact readZlibFuel_some

/-- Witness for C6 (amended): a concrete terminating run of the loop
(one 2-byte block, declared size 1) whose result is no shorter than
the declared size, and whose fueled run agrees with the denotation. -/
theorem readZlib_returns_at_least_size_witness :
    (1 : Nat) ≤ ([0, 0] : List Nat).length
    ∧ readZlibCore [[0, 0]] 1 [] = some [0, 0] :=
  ⟨readZlib_returns_at_least_size.1 [[0, 0]] 1 [0, 0] (by decide),
   readZlib_returns_at_least_size.2 1 [[0, 0]] 1 [] [0, 0] (by decide)⟩

/-- C7 (counterexample): `read_zlib` does not terminate on every
input: on a truncated (empty) decompressed stream with declared size
1, no number of loop iterations ever produces a result — the loop
keeps receiving empty blocks and `sizeremaining` never decreases. -/
theorem readZlib_hangs_on_truncated :
    ¬ ∃ (fuel : Nat) (res : List Nat), readZlibFuel fuel [] 1 [] = some res := by
  rintro ⟨fuel, res, h⟩
  rw [readZlibFuel_eq_none fuel [] 1 [] (by simp)] at h
  cases h

/-- C7 (amended): the `read_zlib` loop terminates exactly when the
decompressed stream supplies at least the declared number of bytes:
with total block bytes `≥ size` it finishes within `blocks.length`
iterations; with total block bytes `< size` (a truncated stream) it
never finishes, for any number of iterations. -/
theorem readZlib_termination :
    (∀ (fuel : Nat) (blocks : List (List Nat)) (r : Int) (acc : List Nat),
      ((blocks.map List.length).sum : Int) < r →
      readZlibFuel fuel blocks r acc = none)
    ∧ (∀ (blocks : List (List Nat)) (r : Int) (acc : List Nat),
      r ≤ ((blocks.map List.length).sum : Int) →
      ∃ res, readZlibFuel blocks.length blocks r acc = some res) := by
  constructor
  · exact readZlibFuel_eq_none
  · intro blocks
    induction blocks with
    | nil =>
      intro r acc hr
      refine ⟨acc, ?_⟩
      rw [readZlibFuel.eq_def]
      simp at hr
      simp [hr]
    | cons b rest ih =>
      intro r acc hr
      by_cases h0 : r ≤ 0
      · refine ⟨acc, ?_⟩
        rw [readZlibFuel.eq_def]
        simp [h0]
      · have step : readZlibFuel (b :: rest).length (b :: rest) r acc
            = readZlibFuel rest.length rest (r - b.length) (acc ++ b) := by
          rw [readZlibFuel.eq_def]
          simp [h0]
        rw [step]
        refine ih (r - b.length) (acc ++ b) ?_
        simp only [List.map_cons, List.sum_cons] at hr
        push_cast at hr ⊢
        omega

/-- Witness for C7 (amended): the truncation branch at fuel 3 on an
empty stream with size 1, and the termination branch on a 2-byte
single-block stream with size 2. -/
theorem readZlib_termination_witness :
    readZlibFuel 3 [] 1 [] = none
    ∧ ∃ res, readZlibFuel 1 [[0, 0]] 2 [] = some res :=
  ⟨readZlib_termination.1 3 [] 1 [] (by decide),
   readZlib_termination.2 [[0, 0]] 2 [] (by decide)⟩

/-- Helper: the first occurrence of `c` in `l ++ c :: r` is at index
`l.length` when `c` does not occur in `l`. -/
theorem idxOf?_append_cons {c : Nat} {l : List Nat} (r : List Nat)
    (h : c ∉ l) : idxOf? c (l ++ c :: r) = some l.length := by
  induction l with
  | nil => simp [idxOf?]
  | cons x xs ih =>
    simp only [List.mem_cons, not_or] at h
    rw [List.cons_append, idxOf?, if_neg (fun hxc => h.1 hxc.symm), ih h.2]
    rfl

/-- Helper: `str(n)` is never empty. -/
theorem toDec_ne_nil (n : Nat) : toDec n ≠ [] := by
  rw [toDec]
  split
  · simp
  · simp

/-- Helper: every byte of `str(n)` is an ASCII decimal digit. -/
theorem toDec_digits (n : Nat) : ∀ d ∈ toDec n, 48 ≤ d ∧ d ≤ 57 := by
  induction n using Nat.strong_induction_on with
  | _ n ih =>
    rw [toDec]
    split
    · rename_i h
      intro d hd
      simp only [List.mem_singleton] at hd
      omega
    · rename_i h
      intro d hd
      simp only [List.mem_append, List.mem_singleton] at hd
      rcases hd with hd | hd
      · exact ih (n / 10) (Nat.div_lt_self (by omega) (by omega)) d hd
      · have := Nat.mod_lt n (show 0 < 10 by omega)
        omega

/-- Helper: folding the decimal-accumulation step over `str(n)`
starting from `acc` yields `acc * 10 ^ digits + n`. -/
theorem foldl_toDec (n : Nat) :
    ∀ acc, (toDec n).foldl (fun a d => a * 10 + (d - 48)) acc
      = acc * 10 ^ (toDec n).length + n := by
  induction n using Nat.strong_induction_on with
  | _ n ih =>
    intro acc
    rw [toDec]
    split
    · rename_i h
      simp [Nat.add_sub_cancel_left]
    · rename_i h
      rw [List.foldl_append,
        ih (n / 10) (Nat.div_lt_self (by omega) (by omega))]
      simp only [List.foldl_cons, List.foldl_nil, List.length_append,
        List.length_singleton]
      rw [pow_succ]
      have h48 : 48 + n % 10 - 48 = n % 10 := by omega
      rw [h48]
      have : (acc * 10 ^ (toDec (n / 10)).length + n / 10) * 10 + n % 10
          = acc * (10 ^ (toDec (n / 10)).length * 10) + (n / 10 * 10 + n % 10) := by
        ring
      rw [this]
      congr 1
      omega

/-- Helper: `int(str(n)) = n` for the digit strings this code builds. -/
theorem parseDec_toDec (n : Nat) : parseDec (toDec n) = some n := by
  rw [parseDec, if_pos]
  · rw [foldl_toDec n 0]
    simp
  · refine ⟨toDec_ne_nil n, ?_⟩
    rw [List.all_eq_true]
    intro d hd
    have := toDec_digits n d hd
    simp only [decide_eq_true_eq]
    exact this

/-- Helper: a natural slice bound resolves to `min k n`. -/
theorem pyIdx_natCast (n k : Nat) : pyIdx n (k : Int) = min k n := by
  rw [pyIdx, if_neg (by omega)]
  simp

/-- Helper: the slice bound `-1` resolves to `n - 1` (dropping the
last element). -/
theorem pyIdx_neg_one (n : Nat) : pyIdx n (-1) = n - 1 := by
  rw [pyIdx, if_pos (by omega)]
  omega

/-- C8: extraction is the exact inverse of envelope construction: for
a type containing neither a space nor a NUL byte, `obj_type`,
`obj_size` and `obj_contents` applied to
`"<type> <len(payload)>\0<payload>"` recover the type, the payload
length and the payload exactly, so re-enveloping the extracted parts
reproduces the original object. -/
theorem envelope_extraction_roundtrip (ty payload : List Nat)
    (h32 : 32 ∉ ty) (h0 : 0 ∉ ty) :
    objType (envelope ty payload) = ty
    ∧ objSize (envelope ty payload) = some payload.length
    ∧ objContents (envelope ty payload) = payload
    ∧ envelope (objType (envelope ty payload))
        (objContents (envelope ty payload)) = envelope ty payload := by
  set d := toDec payload.length with hd
  have hE1 : envelope ty payload = ty ++ 32 :: (d ++ 0 :: payload) := by
    simp [envelope, hd]
  have hE2 : envelope ty payload = (ty ++ 32 :: d) ++ 0 :: payload := by
    simp [envelope, hd]
  have hE3 : envelope ty payload = (ty ++ 32 :: (d ++ [0])) ++ payload := by
    simp [envelope, hd]
  have hdig := toDec_digits payload.length
  have hfind32 : pyFind 32 (envelope ty payload) = (ty.length : Int) := by
    rw [pyFind, hE1, idxOf?_append_cons _ h32]
  have hnot0 : (0 : Nat) ∉ ty ++ 32 :: d := by
    simp only [List.mem_append, List.mem_cons, not_or]
    refine ⟨h0, by omega, fun hmem => ?_⟩
    have := hdig 0 (hd ▸ hmem)
    omega
  have hfind0 : pyFind 0 (envelope ty payload)
      = ((ty.length + 1 + d.length : Nat) : Int) := by
    rw [pyFind, hE2, idxOf?_append_cons _ hnot0]
    simp [Nat.add_comm, Nat.add_assoc, Nat.add_left_comm]
  have hlen : (envelope ty payload).length
      = ty.length + 1 + d.length + 1 + payload.length := by
    rw [hE1]; simp; omega
  have hty : objType (envelope ty payload) = ty := by
    rw [objType, hfind32, pySlice]
    have h1 : pyIdx (envelope ty payload).length (ty.length : Int)
        = ty.length := by
      rw [pyIdx_natCast]; omega
    have h2 : pyIdx (envelope ty payload).length 0 = 0 := by
      have : ((0 : Nat) : Int) = (0 : Int) := rfl
      rw [← this, pyIdx_natCast]; omega
    rw [h1, h2, List.drop_zero, hE1, List.take_left]
  have hcontents : objContents (envelope ty payload) = payload := by
    rw [objContents, hfind0, pySlice]
    have h1 : pyIdx (envelope ty payload).length
        ((envelope ty payload).length : Int) = (envelope ty payload).length := by
      rw [pyIdx_natCast]; omega
    have hcast : ((ty.length + 1 + d.length : Nat) : Int) + 1
        = ((ty.length + 1 + d.length + 1 : Nat) : Int) := by push_cast; ring
    rw [h1, hcast, pyIdx_natCast, List.take_length]
    have hmin : min (ty.length + 1 + d.length + 1)
        (envelope ty payload).length = ty.length + 1 + d.length + 1 := by omega
    rw [hmin, hE3]
    refine List.drop_left' ?_
    simp; omega
  have hsize : objSize (envelope ty payload) = some payload.length := by
    rw [objSize, hfind32, hfind0, pySlice]
    have hcast : (ty.length : Int) + 1 = ((ty.length + 1 : Nat) : Int) := by
      push_cast; ring
    rw [hcast, pyIdx_natCast, pyIdx_natCast]
    have hm1 : min (ty.length + 1 + d.length)
        (envelope ty payload).length = ty.length + 1 + d.length := by omega
    have hm2 : min (ty.length + 1)
        (envelope ty payload).length = ty.length + 1 := by omega
    rw [hm1, hm2]
    have htake : (envelope ty payload).take (ty.length + 1 + d.length)
        = (ty ++ [32]) ++ d := by
      rw [hE2]
      have : ty ++ 32 :: d = (ty ++ [32]) ++ d := by simp
      rw [this]
      refine List.take_left' ?_
      simp; omega
    rw [htake, List.drop_left' (by simp), hd, parseDec_toDec]
  exact ⟨hty, hsize, hcontents, by rw [hty, hcontents]⟩

/-- Witness for C8: the round trip evaluated on `"blob"` / `"hi"`. -/
theorem envelope_extraction_roundtrip_witness :
    objType (envelope [98, 108, 111, 98] [104, 105]) = [98, 108, 111, 98]
    ∧ objSize (envelope [98, 108, 111, 98] [104, 105]) = some 2
    ∧ objContents (envelope [98, 108, 111, 98] [104, 105]) = [104, 105]
    ∧ envelope (objType (envelope [98, 108, 111, 98] [104, 105]))
        (objContents (envelope [98, 108, 111, 98] [104, 105]))
      = envelope [98, 108, 111, 98] [104, 105] :=
  envelope_extraction_roundtrip [98, 108, 111, 98] [104, 105]
    (by decide) (by decide)

/-- C9 (counterexample): the extraction operations do not fail on
malformed envelopes — there is no `MalformedObject` check anywhere:
on `"blobX"` (no space, no NUL separator) `obj_type` returns all but
the last byte and `obj_contents` returns the whole string, and on
`"blob 5\0ab"` (declared size 5, 2-byte payload) all three extractors
return values with no size-versus-payload check. -/
theorem extraction_returns_values :
    objType [98, 108, 111, 98, 88] = [98, 108, 111, 98]
    ∧ objContents [98, 108, 111, 98, 88] = [98, 108, 111, 98, 88]
    ∧ objSize [98, 108, 111, 98, 32, 53, 0, 97, 98] = some 5
    ∧ objContents [98, 108, 111, 98, 32, 53, 0, 97, 98] = [97, 98] := by
  decide

/-- C9 (amended): extraction performs no validation and never raises a
`MalformedObject` error: with no space separator `obj_type` returns the
input minus its final byte (Python's `obj[: -1]` slice), with no NUL
separator `obj_contents` returns the whole input, and a size/payload
disagreement passes through all three extractors unnoticed (`obj_size`
alone can raise, when its slice fails to parse as an integer). -/
theorem extraction_no_validation (s : List Nat) :
    (idxOf? 32 s = none → objType s = s.take (s.length - 1))
    ∧ (idxOf? 0 s = none → objContents s = s)
    ∧ (objSize [98, 108, 111, 98, 32, 53, 0, 97, 98] = some 5
       ∧ (objContents [98, 108, 111, 98, 32, 53, 0, 97, 98]).length ≠ 5) := by
  refine ⟨?_, ?_, by decide, by decide⟩
  · intro h
    rw [objType, pyFind, h, pySlice, pyIdx_neg_one]
    have h2 : pyIdx s.length 0 = 0 := by
      have : ((0 : Nat) : Int) = (0 : Int) := rfl
      rw [← this, pyIdx_natCast]; omega
    rw [h2, List.drop_zero]
  · intro h
    rw [objContents, pyFind, h, pySlice]
    have h1 : pyIdx s.length (s.length : Int) = s.length := by
      rw [pyIdx_natCast]; omega
    have h2 : (-1 : Int) + 1 = ((0 : Nat) : Int) := by norm_num
    rw [h1, h2, pyIdx_natCast, List.take_length]
    simp

/-- Witness for C9 (amended): both missing-separator branches
evaluated on `"blobX"`. -/
theorem extraction_no_validation_witness :
    objType [98, 108, 111, 98, 88] = [98, 108, 111, 98, 88].take 4
    ∧ objContents [98, 108, 111, 98, 88] = [98, 108, 111, 98, 88] :=
  ⟨(extraction_no_validation [98, 108, 111, 98, 88]).1 (by decide),
   (extraction_no_validation [98, 108, 111, 98, 88]).2.1 (by decide)⟩

/-- Helper: the source's linear scan over `[lo, lo + n)` is the first
index of the range whose hash-table entry matches. -/
theorem idxScan_eq_find?_aux (idx target : List Nat) (n : Nat) :
    ∀ lo, idxScan idx target lo (lo + n)
      = (List.range' lo n).find? (fun ix => decide (hashAt idx ix = target)) := by
  induction n with
  | zero =>
    intro lo
    rw [idxScan.eq_def]
    simp
  | succ n ih =>
    intro lo
    rw [idxScan.eq_def, List.range'_succ]
    have hlt : lo < lo + (n + 1) := by omega
    rw [if_pos hlt]
    by_cases hm : hashAt idx lo = target
    · rw [if_pos hm, List.find?_cons_of_pos _ (by simp [hm])]
    · rw [if_neg hm, List.find?_cons_of_neg _ (by simp [hm])]
      have : lo + (n + 1) = (lo + 1) + n := by omega
      rw [this, ih (lo + 1)]

/-- Helper: the scan over an arbitrary `[lo, hi)`. -/
theorem idxScan_eq_find? (idx target : List Nat) (lo hi : Nat) :
    idxScan idx target lo hi
      = (List.range' lo (hi - lo)).find? (fun ix => decide (hashAt idx ix = target)) := by
  by_cases h : lo ≤ hi
  · have : hi = lo + (hi - lo) := by omega
    rw [this, idxScan_eq_find?_aux]
    simp
  · have h0 : hi - lo = 0 := by omega
    rw [h0, idxScan.eq_def, if_neg (by omega)]
    simp

/-- C3: the pack-index lookup follows the spec's algorithm exactly:
first byte `b` selects fan-out entries `b-1` and `b` (with `lo = 0`
when `b = 0`) as the candidate range `[lo, hi)` of the sorted hash
table starting at byte 1032; an exact match at the first matching
index `ix` yields the 4-byte big-endian offset at
`1032 + 24*N + 4*ix`, `N` being the final fan-out entry (entry 255,
which the source reads at byte 1028 = 8 + 4·255); no match in the
range yields no result. -/
theorem lookupIdx_follows_spec (idx sha : List Nat) :
    lookupIdx idx sha = specLookup idx sha := by
  rw [lookupIdx, specLookup]
  by_cases hb : sha.headD 0 = 0
  · simp only [hb, if_pos]
    rw [show fanout idx 0 = readU32E idx 8 from rfl]
    cases h8 : readU32E idx 8 with
    | error e => rfl
    | ok hi =>
      simp only []
      rw [idxScan_eq_find?]
      simp only [Nat.sub_zero]
      cases hscan : (List.range' 0 hi).find?
          (fun ix => decide (hashAt idx ix = sha)) with
      | none => rfl
      | some ix =>
        rw [show fanout idx 255 = readU32E idx 1028 from rfl]
  · simp only [hb, if_neg, if_false]
    rw [show fanout idx (sha.headD 0 - 1)
        = readU32E idx (8 + 4 * (sha.headD 0 - 1)) from rfl,
      show (8 : Nat) + 4 * (sha.headD 0 - 1) = 4 + 4 * sha.headD 0 by omega]
    cases hlo : readU32E idx (4 + 4 * sha.headD 0) with
    | error e => rfl
    | ok lo =>
      simp only []
      rw [show fanout idx (sha.headD 0) = readU32E idx (8 + 4 * sha.headD 0) from rfl,
        show (8 : Nat) + 4 * sha.headD 0 = 4 + 4 * sha.headD 0 + 4 by omega]
      cases hhi : readU32E idx (4 + 4 * sha.headD 0 + 4) with
      | error e => rfl
      | ok hi =>
        simp only []
        rw [idxScan_eq_find?]
        cases hscan : (List.range' lo (hi - lo)).find?
            (fun ix => decide (hashAt idx ix = sha)) with
        | none => rfl
        | some ix =>
          rw [show fanout idx 255 = readU32E idx 1028 from rfl]

/-- Helper: lexicographic comparison reports `eq` exactly on equal
lists. -/
theorem cmpB_eq_iff : ∀ a b : List Nat, cmpB a b = .eq ↔ a = b := by
  intro a
  induction a with
  | nil =>
    intro b
    cases b with
    | nil => simp [cmpB]
    | cons y ys => simp [cmpB]
  | cons x xs ih =>
    intro b
    cases b with
    | nil => simp [cmpB]
    | cons y ys =>
      rw [cmpB]
      by_cases hxy : x < y
      · simp [hxy]
        omega
      · by_cases hyx : y < x
        · simp [hxy, hyx]
          omega
        · have hxy' : x = y := by omega
          simp [hxy, hyx, hxy', ih ys]

/-- Helper: `gt` is the mirror image of `lt`. -/
theorem cmpB_gt_iff : ∀ a b : List Nat, cmpB a b = .gt ↔ cmpB b a = .lt := by
  intro a
  induction a with
  | nil =>
    intro b
    cases b with
    | nil => simp [cmpB]
    | cons y ys => simp [cmpB]
  | cons x xs ih =>
    intro b
    cases b with
    | nil => simp [cmpB]
    | cons y ys =>
      rw [cmpB, cmpB]
      by_cases hxy : x < y
      · have hyx : ¬ y < x := by omega
        simp [hxy, hyx]
      · by_cases hyx : y < x
        · simp [hxy, hyx]
        · simp [hxy, hyx, ih ys]

/-- Helper: strict lexicographic order is transitive. -/
theorem cmpB_lt_trans : ∀ a b c : List Nat,
    cmpB a b = .lt → cmpB b c = .lt → cmpB a c = .lt := by
  intro a
  induction a with
  | nil =>
    intro b c hab hbc
    cases b with
    | nil => rw [cmpB] at hab; cases hab
    | cons y ys =>
      cases c with
      | nil => rw [cmpB] at hbc; cases hbc
      | cons z zs => rw [cmpB]
  | cons x xs ih =>
    intro b c hab hbc
    cases b with
    | nil => rw [cmpB] at hab; cases hab
    | cons y ys =>
      cases c with
      | nil => rw [cmpB] at hbc; cases hbc
      | cons z zs =>
        rw [cmpB] at hab hbc ⊢
        by_cases hxy : x < y
        · by_cases hyz : y < z
          · rw [if_pos (by omega)]
          · by_cases hzy : z < y
            · simp [hyz, hzy] at hbc
            · rw [if_pos (by omega)]
        · by_cases hyx : y < x
          · simp [hxy, hyx] at hab
          · have hxy' : x = y := by omega
            simp only [hxy, if_false, hyx] at hab
            by_cases hyz : y < z
            · rw [if_pos (by omega)]
            · by_cases hzy : z < y
              · simp [hyz, hzy] at hbc
              · have hyz' : y = z := by omega
                simp only [hyz, if_false, hzy] at hbc
                rw [if_neg (by omega), if_neg (by omega)]
                exact ih ys zs hab hbc

/-- Helper: strictly smaller lists are unequal. -/
theorem cmpB_lt_ne {a b : List Nat} (h : cmpB a b = .lt) : a ≠ b := by
  intro heq
  subst heq
  rw [(cmpB_eq_iff a a).mpr rfl] at h
  cases h

/-- Helper: whatever `binSearch` finds is a matching entry inside the
search range (no sortedness needed). -/
theorem binSearch_found (idx target : List Nat) :
    ∀ (n lo hi : Nat), hi - lo ≤ n →
      ∀ ix, binSearch idx target lo hi = some ix →
        lo ≤ ix ∧ ix < hi ∧ hashAt idx ix = target := by
  intro n
  induction n with
  | zero =>
    intro lo hi hle ix h
    rw [binSearch.eq_def, if_neg (by omega)] at h
    cases h
  | succ n ih =>
    intro lo hi hle ix h
    rw [binSearch.eq_def] at h
    by_cases hlh : lo < hi
    · rw [if_pos hlh] at h
      simp only [] at h
      cases hc : cmpB (hashAt idx ((lo + hi) / 2)) target with
      | lt =>
        rw [hc] at h
        have := ih ((lo + hi) / 2 + 1) hi (by omega) ix h
        exact ⟨by omega, this.2.1, this.2.2⟩
      | eq =>
        rw [hc] at h
        injection h with h
        subst h
        exact ⟨by omega, by omega, (cmpB_eq_iff _ _).mp hc⟩
      | gt =>
        rw [hc] at h
        have := ih lo ((lo + hi) / 2) (by omega) ix h
        exact ⟨this.1, by omega, this.2.2⟩
    · rw [if_neg hlh] at h
      cases h

/-- Helper: on a strictly sorted range, a `none` from `binSearch`
means no entry of the range matches. -/
theorem binSearch_not_found (idx target : List Nat) :
    ∀ (n lo hi : Nat), hi - lo ≤ n →
      (∀ i j, lo ≤ i → i < j → j < hi →
        cmpB (hashAt idx i) (hashAt idx j) = .lt) →
      binSearch idx target lo hi = none →
      ∀ k, lo ≤ k → k < hi → hashAt idx k ≠ target := by
  intro n
  induction n with
  | zero =>
    intro lo hi hle _ _ k hk1 hk2
    omega
  | succ n ih =>
    intro lo hi hle hsort h k hk1 hk2
    rw [binSearch.eq_def] at h
    by_cases hlh : lo < hi
    · rw [if_pos hlh] at h
      simp only [] at h
      cases hc : cmpB (hashAt idx ((lo + hi) / 2)) target with
      | lt =>
        rw [hc] at h
        by_cases hkm : k < (lo + hi) / 2
        · have hlt := cmpB_lt_trans _ _ _
            (hsort k ((lo + hi) / 2) hk1 hkm (by omega)) hc
          exact cmpB_lt_ne hlt
        · by_cases hke : k = (lo + hi) / 2
          · subst hke
            exact cmpB_lt_ne hc
          · exact ih ((lo + hi) / 2 + 1) hi (by omega)
              (fun i j h1 h2 h3 => hsort i j (by omega) h2 h3)
              h k (by omega) hk2
      | eq =>
        rw [hc] at h
        cases h
      | gt =>
        rw [hc] at h
        have htm : cmpB target (hashAt idx ((lo + hi) / 2)) = .lt :=
          (cmpB_gt_iff _ _).mp hc
        by_cases hkm : (lo + hi) / 2 < k
        · have hlt := cmpB_lt_trans _ _ _ htm
            (hsort ((lo + hi) / 2) k (by omega) hkm hk2)
          exact fun heq => cmpB_lt_ne hlt heq.symm
        · by_cases hke : k = (lo + hi) / 2
          · subst hke
            exact fun heq => cmpB_lt_ne htm heq.symm
          · exact ih lo ((lo + hi) / 2) (by omega)
              (fun i j h1 h2 h3 => hsort i j h1 h2 (by omega))
              h k hk1 (by omega)
    · omega

/-- Helper: whatever the linear scan finds is the first matching
entry of the range. -/
theorem idxScan_found (idx target : List Nat) :
    ∀ (n lo hi : Nat), hi - lo ≤ n →
      ∀ ix, idxScan idx target lo hi = some ix →
        lo ≤ ix ∧ ix < hi ∧ hashAt idx ix = target := by
  intro n
  induction n with
  | zero =>
    intro lo hi hle ix h
    rw [idxScan.eq_def, if_neg (by omega)] at h
    cases h
  | succ n ih =>
    intro lo hi hle ix h
    rw [idxScan.eq_def] at h
    by_cases hlh : lo < hi
    · rw [if_pos hlh] at h
      by_cases hm : hashAt idx lo = target
      · rw [if_pos hm] at h
        injection h with h
        subst h
        exact ⟨le_refl _, hlh, hm⟩
      · rw [if_neg hm] at h
        have := ih (lo + 1) hi (by omega) ix h
        exact ⟨by omega, this.2.1, this.2.2⟩
    · rw [if_neg hlh] at h
      cases h

/-- Helper: a `none` from the linear scan means no entry of the range
matches. -/
theorem idxScan_not_found (idx target : List Nat) :
    ∀ (n lo hi : Nat), hi - lo ≤ n →
      idxScan idx target lo hi = none →
      ∀ k, lo ≤ k → k < hi → hashAt idx k ≠ target := by
  intro n
  induction n with
  | zero =>
    intro lo hi hle _ k hk1 hk2
    omega
  | succ n ih =>
    intro lo hi hle h k hk1 hk2
    rw [idxScan.eq_def] at h
    by_cases hlh : lo < hi
    · rw [if_pos hlh] at h
      by_cases hm : hashAt idx lo = target
      · rw [if_pos hm] at h
        cases h
      · rw [if_neg hm] at h
        by_cases hke : k = lo
        · subst hke
          exact hm
        · exact ih (lo + 1) hi (by omega) h k (by omega) hk2
    · omega

/-- C4: on a strictly sorted hash-table range `[lo, hi)` — as the
fan-out-restricted candidate range of a well-formed version-2 pack
index is — the source's linear scan and a binary search over the same
range return the same result, for every target hash, present in the
table or absent from it. -/
theorem idxScan_eq_binSearch (idx target : List Nat) (lo hi : Nat)
    (hsort : ∀ i j, lo ≤ i → i < j → j < hi →
      cmpB (hashAt idx i) (hashAt idx j) = .lt) :
    idxScan idx target lo hi = binSearch idx target lo hi := by
  cases hs : idxScan idx target lo hi with
  | none =>
    cases hb : binSearch idx target lo hi with
    | none => rfl
    | some j =>
      obtain ⟨hj1, hj2, hj3⟩ := binSearch_found idx target (hi - lo) lo hi
        (le_refl _) j hb
      exact absurd hj3
        (idxScan_not_found idx target (hi - lo) lo hi (le_refl _) hs j hj1 hj2)
  | some i =>
    cases hb : binSearch idx target lo hi with
    | none =>
      obtain ⟨hi1, hi2, hi3⟩ := idxScan_found idx target (hi - lo) lo hi
        (le_refl _) i hs
      exact absurd hi3
        (binSearch_not_found idx target (hi - lo) lo hi (le_refl _) hsort hb
          i hi1 hi2)
    | some j =>
      obtain ⟨hi1, hi2, hi3⟩ := idxScan_found idx target (hi - lo) lo hi
        (le_refl _) i hs
      obtain ⟨hj1, hj2, hj3⟩ := binSearch_found idx target (hi - lo) lo hi
        (le_refl _) j hb
      by_cases hij : i = j
      · rw [hij]
      · exfalso
        by_cases hlt : i < j
        · exact cmpB_lt_ne (hsort i j hi1 hlt hj2) (hi3.trans hj3.symm)
        · exact cmpB_lt_ne (hsort j i hj1 (by omega) hi2) (hj3.trans hi3.symm)

set_option maxRecDepth 20000 in
/-- Witness for C4: a two-entry index (1032 header/fan-out bytes, then
the hashes `20 × 0x01` and `20 × 0x02`), strictly sorted, searched for
the first entry. -/
theorem idxScan_eq_binSearch_witness :
    idxScan (List.replicate 1032 0
        ++ (List.replicate 20 1 ++ List.replicate 20 2))
      (List.replicate 20 1) 0 2
    = binSearch (List.replicate 1032 0
        ++ (List.replicate 20 1 ++ List.replicate 20 2))
      (List.replicate 20 1) 0 2 :=
  idxScan_eq_binSearch _ _ 0 2 (by
    intro i j h0 hij hj2
    have hi0 : i = 0 := by omega
    have hj1 : j = 1 := by omega
    subst hi0
    subst hj1
    decide)

/-- C5: on a pack entry whose decoded type is offset-delta (6), the
reader decodes a second variable-length integer with big-endian group
accumulation adding 1 before each shift, treats it as a backward byte
distance, decompresses the delta stream, resolves the base by reading
the same pack at `offset - distance` (a negative target raises), and
returns the result of applying the Delta Patch Engine to that base —
and this distance encoding is distinct from the little-endian-group
size encoding of the entry header, witnessed on the byte pair
`[0x81, 0x01]` (distance 257 versus header size payload 17). -/
theorem getPackObj_ofs_delta (Z : List Nat → List (List Nat))
    (G : List Nat → Option (List Nat)) (fuel : Nat) (f : List Nat)
    (offset size dist : Nat) (rest rest2 : List Nat)
    (hts : getTypeAndSize (f.drop offset) = .ok (6, size, rest))
    (hofs : getOfsDistance rest = .ok (dist, rest2)) :
    (getPackObj Z G (fuel + 1) f offset
      = match readZlib (Z rest2) size with
        | none => .error "read_zlib hangs"
        | some delta =>
          if dist ≤ offset then
            match getPackObj Z G fuel f (offset - dist) with
            | .error e => .error e
            | .ok none => .error "AttributeError"
            | .ok (some ref) => (patchDelta ref delta).map some
          else .error "IOError: negative seek")
    ∧ (∀ b0 b1, b0 &&& 0x80 ≠ 0 → b1 &&& 0x80 = 0 →
        getOfsDistance [b0, b1]
          = .ok ((((b0 &&& 0x7f) + 1) <<< 7) + (b1 &&& 0x7f), []))
    ∧ getOfsDistance [0x81, 0x01] = .ok (257, [])
    ∧ getTypeAndSize [0x81, 0x01] = .ok (0, 17, [])
    ∧ (257 : Nat) ≠ 17 := by
  refine ⟨?_, ?_, by rfl, by rfl, by decide⟩
  · rw [getPackObj, hts]
    simp only [show ¬ (6 : Nat) < 5 by omega, if_false, if_pos, hofs]
  · intro b0 b1 h0 h1
    simp only [getOfsDistance, ofsLoop.eq_def, h0, h1, if_false, if_true]

/-- Witness for C5: a two-byte pack file holding an offset-delta
header (type 6, size 2) followed by the distance byte `0x01`; the
backward distance 1 from offset 0 makes the recursive read seek to a
negative position, which raises; and the general distance formula
applied at `[0x81, 0x01]`. -/
theorem getPackObj_ofs_delta_witness :
    getPackObj (fun _ => [[1, 2]]) (fun _ => none) 1 [0x62, 0x01] 0
      = .error "IOError: negative seek"
    ∧ getOfsDistance [0x81, 0x01]
      = .ok ((((0x81 &&& 0x7f) + 1) <<< 7) + (0x01 &&& 0x7f), []) := by
  constructor
  · have h := (getPackObj_ofs_delta (fun _ => [[1, 2]]) (fun _ => none) 0
      [0x62, 0x01] 0 2 1 [0x01] [] rfl rfl).1
    rw [h]
    rfl
  · exact (getPackObj_ofs_delta (fun _ => [[1, 2]]) (fun _ => none) 0
      [0x62, 0x01] 0 2 1 [0x01] [] rfl rfl).2.1 0x81 0x01 (by decide) (by decide)

/-- C10: `MemStore.getlooseobj` returns the zlib-compressed encoding
of the stored object, so decompressing it recovers `getobj` exactly
(for every key, stored or not); and the filesystem variant's
`getlooseobj` returns the loose file's bytes verbatim, applying no
transformation.  `compress`/`decompress` abstract `zlib.compress` and
`zlib.decompress`, constrained only by the inversion law. -/
theorem mem_getlooseobj_decompresses_to_getobj :
    ∀ (compress decompress : List Nat → List Nat),
      (∀ s, decompress (compress s) = s) →
      (∀ (m : List (List Nat × List Nat)) (sha : List Nat),
        (memGetlooseobj compress m sha).map decompress = memGetobj m sha)
      ∧ (∀ (readFile : List (List Nat) → Option (List Nat)) (basedir sha : List Nat),
        fsGetlooseobj readFile basedir sha = readFile (loosePath basedir sha)) := by
  intro compress decompress hinv
  constructor
  · intro m sha
    simp [memGetlooseobj, memGetobj, Option.map_map, Function.comp_def, hinv]
  · intro readFile basedir sha
    rfl

/-- Witness for C10: the inversion law instantiated with the identity
coder on a one-object store. -/
theorem mem_getlooseobj_decompresses_to_getobj_witness :
    (memGetlooseobj id [([49], [98])] [49]).map id = memGetobj [([49], [98])] [49]
    ∧ fsGetlooseobj (fun _ => some [7]) [95] [48, 49]
      = (fun _ => some [7]) (loosePath [95] [48, 49]) :=
  ⟨(mem_getlooseobj_decompresses_to_getobj id id (fun _ => rfl)).1 [([49], [98])] [49],
   (mem_getlooseobj_decompresses_to_getobj id id (fun _ => rfl)).2 (fun _ => some [7]) [95] [48, 49]⟩

end Babygit
